import Mathlib

/-!
# Verification of the portfolio-site client scripts

A shallow embedding of the client-side scripts of the `undreak.github.io`
repository (`src/js/github.js`, `src/js/projects-page.js`, `src/js/main.js`,
`src/js/article-mobile.js`, `src/js/lightbox.js` and the i18n manager),
together with proofs about the embedded operations.

Conventions used throughout:

* `localStorage` values are modelled as `Option String` (`none` = key absent);
  JavaScript string truthiness (`""` and `null`/`undefined` are falsy) is made
  explicit at each use site.
* Fallible operations are modelled with `Option`/`Except`.
* Timestamps (`Date.now()`, parsed `updated_at` dates) are modelled as `Nat`
  (milliseconds); JavaScript numbers read back from storage are modelled as
  `Int` to keep signs.
* Browser built-ins that the scripts call (`div.textContent`/`div.innerHTML`
  round-trip, `new URL`, `Array.prototype.sort`) are modelled explicitly; each
  such model carries a doc comment stating which aspects of the built-in it
  captures.
-/

/-! ## Generic string helpers -/

/-- Boolean test that `pat` is an initial segment of `l` (character lists). -/
def seqStarts : List Char → List Char → Bool
  | [], _ => true
  | _ :: _, [] => false
  | p :: ps, c :: cs => p == c && seqStarts ps cs

/-- Boolean substring search on character lists. -/
def seqContains (pat : List Char) : List Char → Bool
  | [] => seqStarts pat []
  | c :: cs => seqStarts pat (c :: cs) || seqContains pat cs

/-- `hasSub s pat` models JavaScript `s.includes(pat)`. -/
def hasSub (s pat : String) : Bool :=
  seqContains pat.toList s.toList

/-- JavaScript string truthiness for a nullable string: `null`/`undefined`
and the empty string are falsy. -/
def jsTruthy : Option String → Bool
  | none => false
  | some s => s != ""

/-- The characters JavaScript `\s` (and `String.prototype.trim`) treat as
whitespace: space, tab, line terminators, vertical tab, form feed, NBSP,
BOM.  (Other rare Unicode space separators are not modelled.) -/
def isJsSpace (c : Char) : Bool :=
  c == ' ' || c == '\t' || c == '\n' || c == '\r' ||
  c == Char.ofNat 11 || c == Char.ofNat 12 ||
  c == Char.ofNat 160 || c == Char.ofNat 0xFEFF ||
  c == Char.ofNat 0x2028 || c == Char.ofNat 0x2029

/-- JavaScript `String.prototype.trim`. -/
def jsTrim (s : String) : String :=
  String.mk (((s.toList.dropWhile isJsSpace).reverse.dropWhile isJsSpace).reverse)

/-- Lower-case every character of a string (models
`String.prototype.toLowerCase` on the ASCII range). -/
def strToLower (s : String) : String :=
  String.mk (s.toList.map Char.toLower)

/-! ## HTML escaping (the `div.textContent = text; div.innerHTML` idiom)

Model of the browser serialization of a text node: `&`, `<`, `>` and
non-breaking space are replaced by their character references, every other
character is kept. -/

/-- Escape a single character the way text-node serialization does. -/
def escapeChar (c : Char) : List Char :=
  if c = '&' then ['&', 'a', 'm', 'p', ';']
  else if c = '<' then ['&', 'l', 't', ';']
  else if c = '>' then ['&', 'g', 't', ';']
  else if c = Char.ofNat 160 then ['&', 'n', 'b', 's', 'p', ';']
  else [c]

def escapeList (l : List Char) : List Char :=
  l.foldr (fun c acc => escapeChar c ++ acc) []

/-- Model of assigning a string to `div.textContent` and reading back
`div.innerHTML`. -/
def escapeHTML (s : String) : String :=
  String.mk (escapeList s.toList)

theorem escapeChar_no_angles (c : Char) :
    ∀ c' ∈ escapeChar c, c' ≠ '<' ∧ c' ≠ '>' := by
  intro c' h
  unfold escapeChar at h
  split_ifs at h with h1 h2 h3 h4 <;> simp at h
  · rcases h with h | h | h | h | h <;> subst h <;> exact ⟨by decide, by decide⟩
  · rcases h with h | h | h | h <;> subst h <;> exact ⟨by decide, by decide⟩
  · rcases h with h | h | h | h <;> subst h <;> exact ⟨by decide, by decide⟩
  · rcases h with h | h | h | h | h | h <;> subst h <;> exact ⟨by decide, by decide⟩
  · subst h; exact ⟨h2, h3⟩

theorem escapeList_no_angles (l : List Char) :
    ∀ c ∈ escapeList l, c ≠ '<' ∧ c ≠ '>' := by
  induction l with
  | nil => intro c h; simp [escapeList] at h
  | cons x xs ih =>
    intro c h
    simp only [escapeList, List.foldr_cons] at h
    rcases List.mem_append.mp h with h' | h'
    · exact escapeChar_no_angles x c h'
    · exact ih c h'

namespace ProjectsManager

/-- `ProjectsManager.sanitizeText` (src/js/github.js lines 38-48), fallback
path without DOMPurify: falsy input gives `''`; otherwise the text-node
escape round-trip. -/
def sanitizeText (text : Option String) : String :=
  if !(jsTruthy text) then ""
  else escapeHTML (text.getD "")

end ProjectsManager

namespace AllProjectsManager

/-- `AllProjectsManager.sanitizeText` (src/js/projects-page.js lines 45-55),
textually identical to `ProjectsManager.sanitizeText`. -/
def sanitizeText (text : Option String) : String :=
  if !(jsTruthy text) then ""
  else escapeHTML (text.getD "")

end AllProjectsManager

theorem sanitizeText_no_angles_PM (t : Option String) :
    ∀ c ∈ (ProjectsManager.sanitizeText t).toList, c ≠ '<' ∧ c ≠ '>' := by
  intro c h
  unfold ProjectsManager.sanitizeText at h
  split_ifs at h
  · simp [String.toList] at h
  · exact escapeList_no_angles _ c h

theorem sanitizeText_no_angles_APM (t : Option String) :
    ∀ c ∈ (AllProjectsManager.sanitizeText t).toList, c ≠ '<' ∧ c ≠ '>' := by
  intro c h
  unfold AllProjectsManager.sanitizeText at h
  split_ifs at h
  · simp [String.toList] at h
  · exact escapeList_no_angles _ c h

/-! ## `I18nManager.sanitizeHTML` fallback path

The fallback escapes the whole string and then restores only the allowed
formatting tags by replacing every match of the case-insensitive regex
`&lt;(\/?)(strong|em|b|i|br)(\s*\/?)&gt;` with `<$1$2$3>`
(i18n manager, src/unnamed/part_000 lines 159-181). -/

/-- The allowed tag names, in the regex alternation order
`strong|em|b|i|br` (lower case). -/
def tagNames : List (List Char) :=
  [['s', 't', 'r', 'o', 'n', 'g'], ['e', 'm'], ['b'], ['i'], ['b', 'r']]

/-- Case-insensitive literal match: `matchCI pat l` succeeds when `l` starts
with `pat` up to lower-casing, returning the matched characters in their
original case and the remainder. -/
def matchCI : List Char → List Char → Option (List Char × List Char)
  | [], l => some ([], l)
  | _ :: _, [] => none
  | p :: ps, c :: cs =>
    if c.toLower = p then (matchCI ps cs).map (fun pr => (c :: pr.1, pr.2))
    else none

/-- A parsed occurrence of the tag-restoring regex: the optional leading
slash (capture `$1`), the tag name in original case (`$2`), and the
whitespace-plus-optional-slash tail (`$3`, split in two). -/
structure TagTok where
  slash1 : List Char
  nameChars : List Char
  ws : List Char
  slash2 : List Char
deriving DecidableEq

/-- The replacement `<$1$2$3>` for a parsed tag occurrence. -/
def tokChars (t : TagTok) : List Char :=
  '<' :: (t.slash1 ++ t.nameChars ++ t.ws ++ t.slash2 ++ ['>'])

/-- Split an optional leading slash (the `\/?` parts of the regex). -/
def matchSlash (l : List Char) : List Char × List Char :=
  match l with
  | '/' :: t => (['/'], t)
  | _ => ([], l)

/-- Match the `(\s*\/?)&gt;` part of the regex; returns the whitespace run,
the optional slash and the remainder after `&gt;`. -/
def matchClose (l : List Char) : Option (List Char × List Char × List Char) :=
  let ws := l.takeWhile isJsSpace
  let l1 := l.dropWhile isJsSpace
  let s2 := (matchSlash l1).1
  let l2 := (matchSlash l1).2
  (matchCI ['&', 'g', 't', ';'] l2).map (fun pr => (ws, s2, pr.2))

/-- Try the tag-name alternatives in regex order; an alternative only wins
if the closing part also matches (regex backtracking). -/
def tryNames (slash1 : List Char) : List (List Char) → List Char → Option (TagTok × List Char)
  | [], _ => none
  | nm :: rest, l =>
    match matchCI nm l with
    | some (orig, after) =>
      match matchClose after with
      | some (ws, s2, tail2) => some (⟨slash1, orig, ws, s2⟩, tail2)
      | none => tryNames slash1 rest l
    | none => tryNames slash1 rest l

/-- Match one full occurrence of `&lt;(\/?)(strong|em|b|i|br)(\s*\/?)&gt;`
at the head of `l`. -/
def matchTag (l : List Char) : Option (TagTok × List Char) :=
  match matchCI ['&', 'l', 't', ';'] l with
  | none => none
  | some (_, r1) => tryNames (matchSlash r1).1 tagNames (matchSlash r1).2

/-- Global regex replace, fuel-indexed: at each position either replace a
match of the tag regex with `<$1$2$3>` or copy one character.  Each match
consumes at least eight characters, so fuel equal to the input length makes
the fuel-exhausted branch unreachable. -/
def restoreFuel : Nat → List Char → List Char
  | 0, l => l
  | _ + 1, [] => []
  | fuel + 1, c :: cs =>
    match matchTag (c :: cs) with
    | some (t, rest) => tokChars t ++ restoreFuel fuel rest
    | none => c :: restoreFuel fuel cs

namespace I18nManager

/-- `I18nManager.sanitizeHTML` (src/unnamed/part_000 lines 159-181), fallback
path without DOMPurify: escape all HTML, then restore only the allowed
formatting tags. -/
def sanitizeHTML (html : String) : String :=
  let esc := escapeList html.toList
  String.mk (restoreFuel esc.length esc)

end I18nManager

/-- A character list is an allowed formatting-tag token: `<`, an optional
`/`, an allowed tag name up to case, optional whitespace, an optional `/`,
then `>`. -/
def AllowedTok (t : List Char) : Prop :=
  ∃ s1 nm ws s2, t = '<' :: (s1 ++ nm ++ ws ++ s2 ++ ['>'])
    ∧ (s1 = [] ∨ s1 = ['/'])
    ∧ nm.map Char.toLower ∈ tagNames
    ∧ (∀ c ∈ ws, isJsSpace c = true)
    ∧ (s2 = [] ∨ s2 = ['/'])

/-- A character list made only of non-markup characters and allowed
formatting-tag tokens: every `<` or `>` in it belongs to an allowed token. -/
inductive SafeChunks : List Char → Prop
  | nil : SafeChunks []
  | plain {c : Char} {cs : List Char} :
      c ≠ '<' → c ≠ '>' → SafeChunks cs → SafeChunks (c :: cs)
  | tok {t cs : List Char} :
      AllowedTok t → SafeChunks cs → SafeChunks (t ++ cs)

theorem matchCI_spec (p : List Char) :
    ∀ l a r, matchCI p l = some (a, r) →
      l = a ++ r ∧ a.map Char.toLower = p := by
  induction p with
  | nil =>
    intro l a r h
    simp only [matchCI, Option.some.injEq, Prod.mk.injEq] at h
    simp [← h.1, ← h.2]
  | cons x xs ih =>
    intro l a r h
    cases l with
    | nil => simp [matchCI] at h
    | cons c cs =>
      simp only [matchCI] at h
      split_ifs at h with hc
      · cases hm : matchCI xs cs with
        | none => rw [hm] at h; simp at h
        | some pr =>
          rw [hm] at h
          simp only [Option.map, Option.some.injEq, Prod.mk.injEq] at h
          obtain ⟨ha, hr⟩ := h
          obtain ⟨h1, h2⟩ := ih cs pr.1 pr.2 (by rw [hm])
          subst ha; subst hr
          constructor
          · simp [h1]
          · simp [h2, hc]

theorem matchSlash_spec (l : List Char) :
    ((matchSlash l).1 = [] ∧ (matchSlash l).2 = l) ∨
    ((matchSlash l).1 = ['/'] ∧ l = '/' :: (matchSlash l).2) := by
  cases l with
  | nil => left; exact ⟨rfl, rfl⟩
  | cons c cs =>
    by_cases hc : c = '/'
    · subst hc; right; exact ⟨rfl, rfl⟩
    · left
      constructor <;> (unfold matchSlash; split)
      · simp_all
      · rfl
      · simp_all
      · rfl

theorem matchClose_spec (l ws s2 r : List Char) (h : matchClose l = some (ws, s2, r)) :
    (∀ c ∈ ws, isJsSpace c = true) ∧ (s2 = [] ∨ s2 = ['/']) ∧ (∀ c ∈ r, c ∈ l) := by
  unfold matchClose at h
  dsimp only at h
  have hmemdrop : ∀ c ∈ l.dropWhile isJsSpace, c ∈ l :=
    fun c hc => (l.dropWhile_sublist isJsSpace).mem hc
  have hws : ∀ c ∈ l.takeWhile isJsSpace, isJsSpace c = true :=
    fun c hc => List.mem_takeWhile_imp hc
  have hslash := matchSlash_spec (l.dropWhile isJsSpace)
  have hmem2 : ∀ c ∈ (matchSlash (l.dropWhile isJsSpace)).2, c ∈ l := by
    intro c hc
    rcases hslash with ⟨_, h2⟩ | ⟨_, h2⟩
    · exact hmemdrop c (h2 ▸ hc)
    · exact hmemdrop c (h2 ▸ List.mem_cons_of_mem _ hc)
  cases hm : matchCI ['&', 'g', 't', ';'] (matchSlash (l.dropWhile isJsSpace)).2 with
  | none => rw [hm] at h; simp at h
  | some pr =>
    rw [hm] at h
    simp only [Option.map, Option.some.injEq, Prod.mk.injEq] at h
    obtain ⟨hws', hs2, hr⟩ := h
    refine ⟨hws' ▸ hws, ?_, ?_⟩
    · rcases hslash with ⟨h1, _⟩ | ⟨h1, _⟩
      · exact Or.inl (hs2 ▸ h1)
      · exact Or.inr (hs2 ▸ h1)
    · intro c hc
      have hsplit := (matchCI_spec _ _ pr.1 pr.2 (by rw [hm])).1
      exact hmem2 c (hsplit ▸ List.mem_append.mpr (Or.inr (hr ▸ hc)))

theorem tryNames_spec (slash1 : List Char) (hs1 : slash1 = [] ∨ slash1 = ['/'])
    (names : List (List Char)) (hnames : ∀ nm ∈ names, nm ∈ tagNames) :
    ∀ l t rest, tryNames slash1 names l = some (t, rest) →
      AllowedTok (tokChars t) ∧ (∀ c ∈ rest, c ∈ l) := by
  induction names with
  | nil => intro l t rest h; simp [tryNames] at h
  | cons nm rest' ih =>
    intro l t rest h
    have hnm : nm ∈ tagNames := hnames nm (List.mem_cons_self _ _)
    have hrest' : ∀ x ∈ rest', x ∈ tagNames :=
      fun x hx => hnames x (List.mem_cons_of_mem _ hx)
    simp only [tryNames] at h
    cases hm : matchCI nm l with
    | none => rw [hm] at h; exact ih hrest' l t rest h
    | some pr =>
      obtain ⟨orig, after⟩ := pr
      rw [hm] at h
      simp only at h
      cases hc : matchClose after with
      | none => rw [hc] at h; exact ih hrest' l t rest h
      | some trip =>
        obtain ⟨ws1, s2, tail2⟩ := trip
        rw [hc] at h
        simp only [Option.some.injEq, Prod.mk.injEq] at h
        obtain ⟨ht, hrest⟩ := h
        obtain ⟨hl, hlower⟩ := matchCI_spec nm l orig after hm
        obtain ⟨hws, hs2, hmem⟩ := matchClose_spec after ws1 s2 tail2 hc
        constructor
        · rw [← ht]
          exact ⟨slash1, orig, ws1, s2, rfl, hs1, hlower ▸ hnm, hws, hs2⟩
        · intro c hcmem
          have : c ∈ after := hmem c (by rw [← hrest] at hcmem; exact hcmem)
          rw [hl]; exact List.mem_append.mpr (Or.inr this)

theorem matchTag_spec (l : List Char) (t : TagTok) (rest : List Char)
    (h : matchTag l = some (t, rest)) :
    AllowedTok (tokChars t) ∧ (∀ c ∈ rest, c ∈ l) := by
  unfold matchTag at h
  cases hm : matchCI ['&', 'l', 't', ';'] l with
  | none => rw [hm] at h; simp at h
  | some pr =>
    obtain ⟨a0, r1⟩ := pr
    rw [hm] at h
    simp only at h
    have hl : l = a0 ++ r1 := (matchCI_spec _ l a0 r1 hm).1
    have hmemr1 : ∀ c ∈ r1, c ∈ l := by
      intro c hc; rw [hl]; exact List.mem_append.mpr (Or.inr hc)
    have hsl := matchSlash_spec r1
    have hs1' : (matchSlash r1).1 = [] ∨ (matchSlash r1).1 = ['/'] := by
      rcases hsl with ⟨h1, _⟩ | ⟨h1, _⟩
      · exact Or.inl h1
      · exact Or.inr h1
    obtain ⟨ht, hmem⟩ :=
      tryNames_spec (matchSlash r1).1 hs1' tagNames (fun _ hx => hx) (matchSlash r1).2 t rest h
    refine ⟨ht, fun c hc => hmemr1 c ?_⟩
    have := hmem c hc
    rcases hsl with ⟨_, h2'⟩ | ⟨_, h2'⟩
    · exact h2' ▸ this
    · rw [h2']; exact List.mem_cons_of_mem _ this

theorem safeChunks_of_plain (l : List Char) (h : ∀ c ∈ l, c ≠ '<' ∧ c ≠ '>') :
    SafeChunks l := by
  induction l with
  | nil => exact SafeChunks.nil
  | cons c cs ih =>
    have hc := h c (List.mem_cons_self _ _)
    exact SafeChunks.plain hc.1 hc.2 (ih fun x hx => h x (List.mem_cons_of_mem _ hx))

theorem restoreFuel_safe (fuel : Nat) :
    ∀ l, (∀ c ∈ l, c ≠ '<' ∧ c ≠ '>') → SafeChunks (restoreFuel fuel l) := by
  induction fuel with
  | zero => intro l h; exact safeChunks_of_plain l h
  | succ n ih =>
    intro l h
    cases l with
    | nil => exact SafeChunks.nil
    | cons c cs =>
      cases hm : matchTag (c :: cs) with
      | none =>
        simp only [restoreFuel, hm]
        have hc := h c (List.mem_cons_self _ _)
        exact SafeChunks.plain hc.1 hc.2 (ih cs fun x hx => h x (List.mem_cons_of_mem _ hx))
      | some pr =>
        simp only [restoreFuel, hm]
        obtain ⟨ht, hmem⟩ := matchTag_spec (c :: cs) pr.1 pr.2 (by rw [hm])
        exact SafeChunks.tok ht (ih pr.2 fun x hx => h x (hmem x hx))

/-- **C1.** The text-sanitization fallbacks used before rendering leave no
executable markup: `ProjectsManager.sanitizeText` and
`AllProjectsManager.sanitizeText` return strings with no `<` or `>`
character at all (so an input containing `<script>` comes out fully
escaped), and the `I18nManager.sanitizeHTML` fallback returns a string in
which every `<` and `>` belongs to a whitelisted formatting tag
(`strong`, `em`, `b`, `i`, `br`); every `<`/`>` of disallowed markup stays
HTML-escaped. -/
theorem c1_sanitizers_escape_disallowed_markup :
    (∀ t : Option String, ∀ c ∈ (ProjectsManager.sanitizeText t).toList,
        c ≠ '<' ∧ c ≠ '>') ∧
    (∀ t : Option String, ∀ c ∈ (AllProjectsManager.sanitizeText t).toList,
        c ≠ '<' ∧ c ≠ '>') ∧
    (∀ html : String, SafeChunks (I18nManager.sanitizeHTML html).toList) := by
  refine ⟨sanitizeText_no_angles_PM, sanitizeText_no_angles_APM, ?_⟩
  intro html
  show SafeChunks (String.toList (String.mk _))
  exact restoreFuel_safe _ _ (escapeList_no_angles html.toList)

/-- Witness for `c1_sanitizers_escape_disallowed_markup` at the concrete
input `<script>alert(1)</script>`: the sanitized text starts with the
escaped `&`, which is neither `<` nor `>`, and the sanitizeHTML output of
a string containing a `<script>` tag is safe. -/
theorem c1_witness :
    ('&' ∈ (ProjectsManager.sanitizeText (some "<script>alert(1)</script>")).toList
      ∧ '&' ≠ '<' ∧ '&' ≠ '>')
    ∧ ('&' ∈ (AllProjectsManager.sanitizeText (some "<script>x</script>")).toList
      ∧ '&' ≠ '<' ∧ '&' ≠ '>')
    ∧ SafeChunks (I18nManager.sanitizeHTML "<script>alert(1)</script><b>hi</b>").toList := by
  refine ⟨⟨by decide, ?_⟩, ⟨by decide, ?_⟩, ?_⟩
  · exact c1_sanitizers_escape_disallowed_markup.1
      (some "<script>alert(1)</script>") '&' (by decide)
  · exact c1_sanitizers_escape_disallowed_markup.2.1
      (some "<script>x</script>") '&' (by decide)
  · exact c1_sanitizers_escape_disallowed_markup.2.2
      "<script>alert(1)</script><b>hi</b>"

/-! ## The repository record and the two project managers

A normalized repository record, as produced by `fetchGitHubRepos` /
`fetchGitLabProjects` (src/js/github.js lines 117-131 and 164-180; the
projects-page versions add `created_at`, which no claim touches and which is
omitted here).  `updated_at` is the parsed `Date` value in milliseconds
(all records are assumed to carry parseable dates, as the two APIs
guarantee). -/
structure Project where
  name : String
  description : Option String
  html_url : Option String
  homepage : Option String
  topics : List String
  language : Option String
  stargazers_count : Nat
  updated_at : Nat
  source : String
deriving DecidableEq

/-- The comparator relation of
`allProjects.sort((a, b) => new Date(b.updated_at) - new Date(a.updated_at))`:
`a` may come before `b` when its date is not older. -/
def updatedDescRel (a b : Project) : Prop := b.updated_at ≤ a.updated_at

instance : DecidableRel updatedDescRel := fun _ _ => Nat.decLe _ _

instance : IsTotal Project updatedDescRel :=
  ⟨fun a b => Nat.le_total b.updated_at a.updated_at⟩

instance : IsTrans Project updatedDescRel :=
  ⟨fun _ _ _ hab hbc => Nat.le_trans hbc hab⟩

/-- `Array.prototype.sort` with the descending-by-`updated_at` comparator.
ECMAScript sorting is stable, and for a total preorder every stable sort
agrees with stable insertion sort, so the JavaScript call is modelled by
`List.insertionSort`. -/
def sortByUpdatedDesc (l : List Project) : List Project :=
  List.insertionSort updatedDescRel l

/-- The comparator relation of `(a, b) => b.stargazers_count - a.stargazers_count`. -/
def starsDescRel (a b : Project) : Prop := b.stargazers_count ≤ a.stargazers_count

instance : DecidableRel starsDescRel := fun _ _ => Nat.decLe _ _

/-- Stable sort by descending star count. -/
def sortByStarsDesc (l : List Project) : List Project :=
  List.insertionSort starsDescRel l

/-- The comparator relation of `(a, b) => a.name.localeCompare(b.name)`,
modelled as code-point string order (`localeCompare` collation is
locale-dependent; only its comparator sign structure matters here). -/
def nameAscRel (a b : Project) : Prop := a.name ≤ b.name

instance : DecidableRel nameAscRel := fun a b => inferInstanceAs (Decidable (a.name ≤ b.name))

/-- Stable sort by ascending name. -/
def sortByNameAsc (l : List Project) : List Project :=
  List.insertionSort nameAscRel l

/-- One settled entry of `Promise.allSettled`: a fulfilled project list or a
rejection reason. -/
abbrev Settled := Except String (List Project)

/-- The status checks of `init` / `fetchAllProjects` on the two settled
results (src/js/github.js lines 57-69, src/js/projects-page.js lines 74-84):
each fulfilled value is appended, each rejection only logs a warning. -/
def collectSettled (github gitlab : Settled) : List Project :=
  (match github with | .ok l => l | .error _ => []) ++
  (match gitlab with | .ok l => l | .error _ => [])

namespace ProjectsManager

/-- The list handed to `displayProjects` by `ProjectsManager.init`
(src/js/github.js lines 50-84): collect the fulfilled settled results, sort
by last updated, take the first six. -/
def initDisplayed (github gitlab : Settled) : List Project :=
  (sortByUpdatedDesc (collectSettled github gitlab)).take 6

end ProjectsManager

/-! ## URL validation (`isValidURL` and the `new URL` built-in)

Model of the WHATWG URL constructor (the browser built-in `new URL(url)`
with no base), restricted to the aspects `isValidURL` depends on:

* leading/trailing C0-control-or-space trimming and removal of all tabs and
  newlines;
* scheme parsing (`[a-zA-Z][a-zA-Z0-9+\-.]*:`) and lower-casing — an input
  with no scheme is a relative URL and the constructor throws;
* for special schemes (`http`, `https`, `ws`, `wss`, `ftp`): slash
  normalization and the non-empty-host requirement (empty host throws);
* the serialized `href` starts with the lowercased scheme and `:`.

Userinfo/port splitting, IDNA, percent-encoding and path normalization are
not modelled; they never change a URL's protocol. -/

def isC0OrSpace (c : Char) : Bool := c.toNat ≤ 0x20

def isTabOrNewline (c : Char) : Bool := c == '\t' || c == '\n' || c == '\r'

/-- Input preprocessing of the WHATWG URL parser. -/
def stripControls (s : String) : List Char :=
  (((s.toList.dropWhile isC0OrSpace).reverse.dropWhile isC0OrSpace).reverse).filter
    (fun c => !(isTabOrNewline c))

def isSchemeChar (c : Char) : Bool := c.isAlphanum || c == '+' || c == '-' || c == '.'

/-- Scheme parsing: accumulate scheme characters up to the first `:`. -/
def schemeAux : List Char → List Char → Option (List Char × List Char)
  | _, [] => none
  | acc, c :: cs =>
    if c = ':' then some (acc.reverse, cs)
    else if isSchemeChar c then schemeAux (c :: acc) cs
    else none

/-- Split a leading URL scheme: the first character must be ASCII alpha. -/
def splitScheme (l : List Char) : Option (List Char × List Char) :=
  match l with
  | [] => none
  | c :: cs => if c.isAlpha then schemeAux [c] cs else none

/-- The result of the URL constructor: the `protocol` (scheme plus `:`) and
the serialized `href`. -/
structure ParsedURL where
  protocol : String
  href : String
deriving DecidableEq

/-- The special schemes of the WHATWG standard (the `file` empty-host
special case keeps the model honest but is unreachable through
`isValidURL`). -/
def specialSchemes : List String := ["ftp", "file", "http", "https", "ws", "wss"]

/-- Model of `new URL(s)` (no base): `none` means the constructor throws. -/
def parseURL (s : String) : Option ParsedURL :=
  let l := stripControls s
  match splitScheme l with
  | none => none
  | some (schemeRaw, rest) =>
    let scheme := String.mk (schemeRaw.map Char.toLower)
    if scheme ∈ specialSchemes then
      let rest1 := rest.dropWhile (fun c => c == '/' || c == '\\')
      let host := rest1.takeWhile (fun c => !(c == '/' || c == '\\' || c == '?' || c == '#'))
      let tail := rest1.drop host.length
      if host = [] ∧ scheme ≠ "file" then none
      else
        some ⟨scheme ++ ":",
          scheme ++ "://" ++
            (String.mk (host.map Char.toLower) ++
              (if tail = [] then "/" else String.mk tail))⟩
    else
      some ⟨scheme ++ ":", scheme ++ ":" ++ String.mk rest⟩

namespace ProjectsManager

/-- `ProjectsManager.isValidURL` (src/js/github.js lines 23-36): falsy input
or a constructor throw gives `null`; a parsed URL whose protocol is not
`http:`/`https:` gives `null`; otherwise the serialized `href`. -/
def isValidURL (url : Option String) : Option String :=
  if !(jsTruthy url) then none
  else
    match parseURL (url.getD "") with
    | none => none
    | some parsed =>
      if parsed.protocol ≠ "http:" ∧ parsed.protocol ≠ "https:" then none
      else some parsed.href

end ProjectsManager

namespace AllProjectsManager

/-- `AllProjectsManager.isValidURL` (src/js/projects-page.js lines 30-43),
textually identical to `ProjectsManager.isValidURL`. -/
def isValidURL (url : Option String) : Option String :=
  if !(jsTruthy url) then none
  else
    match parseURL (url.getD "") with
    | none => none
    | some parsed =>
      if parsed.protocol ≠ "http:" ∧ parsed.protocol ≠ "https:" then none
      else some parsed.href

end AllProjectsManager

/-! ## Project card rendering

`createProjectCard` is textually identical in the two managers
(src/js/github.js lines 201-268, src/js/projects-page.js lines 302-369);
the shared template is factored out here, parameterized over the manager's
`sanitizeText` and `isValidURL`.  The SVG icon bodies and the whitespace
indentation inside the template literal are elided (they are constant
markup interpolating nothing). -/

/-- `getGitHubIcon` / `getGitLabIcon`, with the constant `path` data
elided. -/
def getGitHubIcon : String := "<svg viewBox=\"0 0 24 24\" fill=\"currentColor\"><path d=\"...github...\"/></svg>"

def getGitLabIcon : String := "<svg viewBox=\"0 0 24 24\" fill=\"currentColor\"><path d=\"...gitlab...\"/></svg>"

/-- The shared card template: sanitize the text fields, validate the two
URLs, return `''` when the repository URL is invalid, otherwise the
interpolated markup. -/
def projectCardHTML (sanitize : Option String → String)
    (isValid : Option String → Option String) (repo : Project) : String :=
  let topics := repo.topics
  let description :=
    let d := sanitize repo.description
    if d = "" then "No description available" else d
  let nm := sanitize (some repo.name)
  let language := sanitize repo.language
  let sourceIcon := if repo.source == "github" then getGitHubIcon else getGitLabIcon
  match isValid repo.html_url with
  | none => ""
  | some repoUrl =>
    let homepageUrl := isValid repo.homepage
    let homepageBlock :=
      match homepageUrl with
      | some h =>
        "<a href=\"" ++ h ++ "\" class=\"project-card__external\" target=\"_blank\" rel=\"noopener noreferrer\" aria-label=\"View " ++ nm ++ " live demo\" title=\"Live demo\"><svg viewBox=\"0 0 24 24\" fill=\"none\" stroke=\"currentColor\" stroke-width=\"2\"><path d=\"M18 13v6a2 2 0 0 1-2 2H5a2 2 0 0 1-2-2V8a2 2 0 0 1 2-2h6\"/><polyline points=\"15 3 21 3 21 9\"/><line x1=\"10\" y1=\"14\" x2=\"21\" y2=\"3\"/></svg></a>"
      | none => ""
    let tagsBlock :=
      if topics.length > 0 then
        "<div class=\"project-card__tags\">" ++
          String.join ((topics.take 5).map
            (fun topic => "<span class=\"tag\">" ++ sanitize (some topic) ++ "</span>")) ++
        "</div>"
      else ""
    let starsBlock :=
      if repo.stargazers_count > 0 then
        "<span class=\"stat\"><svg viewBox=\"0 0 16 16\" fill=\"currentColor\"><path d=\"...star...\"/></svg><span>" ++ toString repo.stargazers_count ++ "</span></span>"
      else ""
    let langBlock :=
      if language ≠ "" then
        "<span class=\"stat\"><svg viewBox=\"0 0 16 16\" fill=\"currentColor\"><circle cx=\"8\" cy=\"8\" r=\"3\"/></svg><span>" ++ language ++ "</span></span>"
      else ""
    "<article class=\"project-card\" data-project=\"" ++ nm ++ "\">" ++
    "<a href=\"" ++ repoUrl ++ "\" target=\"_blank\" rel=\"noopener noreferrer\" class=\"project-card__link-overlay\" aria-label=\"View " ++ nm ++ "\"></a>" ++
    "<div class=\"project-card__header\"><h3 class=\"project-card__title\">" ++ nm ++ "</h3>" ++
    "<div class=\"project-card__icons\"><span class=\"project-card__source\" title=\"" ++
      (if repo.source == "github" then "GitHub" else "GitLab") ++ "\">" ++ sourceIcon ++ "</span>" ++
    homepageBlock ++ "</div></div>" ++
    "<p class=\"project-card__description\">" ++ description ++ "</p>" ++
    tagsBlock ++
    "<div class=\"project-card__stats\">" ++ starsBlock ++ langBlock ++ "</div>" ++
    "</article>"

namespace ProjectsManager

/-- `ProjectsManager.createProjectCard` (src/js/github.js lines 201-268). -/
def createProjectCard (repo : Project) : String :=
  projectCardHTML sanitizeText isValidURL repo

/-- `ProjectsManager.displayProjects` (src/js/github.js lines 191-199): the
`innerHTML` written to the container. -/
def displayProjectsHTML (repos : List Project) : String :=
  if repos.length = 0 then
    "<p class=\"projects__empty\">No projects to display yet.</p>"
  else
    String.join (repos.map createProjectCard)

/-- `ProjectsManager.handleError` (src/js/github.js lines 282-290): the
`innerHTML` written to the container on the exception path, with the
static profile links. -/
def handleErrorHTML : String :=
  "<div class=\"projects__error\"><p>Unable to load projects at the moment. Please visit my <a href=\"https://github.com/Undreak\" target=\"_blank\" rel=\"noopener noreferrer\">GitHub</a> or <a href=\"https://gitlab.com/Undreak\" target=\"_blank\" rel=\"noopener noreferrer\">GitLab</a> profile directly.</p></div>"

/-- The container HTML produced by a completed run of
`ProjectsManager.init` on two settled fetch results.  No statement in the
settled-results processing throws, so the `catch`/`handleError` path is
unreachable from `Promise.allSettled` outcomes. -/
def initHTML (github gitlab : Settled) : String :=
  displayProjectsHTML (initDisplayed github gitlab)

end ProjectsManager

namespace AllProjectsManager

/-- `AllProjectsManager.fetchAllProjects` (src/js/projects-page.js lines
68-92): collect the fulfilled settled results into `allProjects`; throw
`'No projects found'` when nothing survived. -/
def fetchAllProjects (github gitlab : Settled) : Except String (List Project) :=
  let allProjects := collectSettled github gitlab
  if allProjects.length = 0 then .error "No projects found"
  else .ok allProjects

/-- The `currentFilters` state of `AllProjectsManager`
(src/js/projects-page.js lines 20-25). -/
structure Filters where
  source : String
  language : String
  search : String
  sort : String
deriving DecidableEq

/-- The constructor defaults of `currentFilters`. -/
def defaultFilters : Filters :=
  { source := "all", language := "all", search := "", sort := "updated" }

/-- The search predicate of `applyFilters` (src/js/projects-page.js lines
262-269): match on lower-cased name, description or topics.  (`search` is
already lower-cased by the input handler.) -/
def matchesSearch (search : String) (p : Project) : Bool :=
  hasSub (strToLower p.name) search ||
  (match p.description with
   | some d => hasSub (strToLower d) search
   | none => false) ||
  p.topics.any (fun t => hasSub (strToLower t) search)

/-- `AllProjectsManager.applyFilters` (src/js/projects-page.js lines
247-287): filter by source, language and search, then sort by the selected
comparator (`'updated'` and every unknown value sort by descending
`updated_at`). -/
def applyFilters (fs : Filters) (allProjects : List Project) : List Project :=
  let f1 :=
    if fs.source ≠ "all" then allProjects.filter (fun p => p.source == fs.source)
    else allProjects
  let f2 :=
    if fs.language ≠ "all" then f1.filter (fun p => p.language == some fs.language)
    else f1
  let f3 :=
    if fs.search ≠ "" then f2.filter (matchesSearch fs.search)
    else f2
  if fs.sort = "stars" then sortByStarsDesc f3
  else if fs.sort = "name" then sortByNameAsc f3
  else sortByUpdatedDesc f3

/-- `AllProjectsManager.createProjectCard` (src/js/projects-page.js lines
302-369), textually identical to the github.js version. -/
def createProjectCard (repo : Project) : String :=
  projectCardHTML sanitizeText isValidURL repo

/-- `AllProjectsManager.showError` (src/js/projects-page.js lines 407-417):
the grid `innerHTML` on the failure path, with the sanitized error message
and the static profile links. -/
def showErrorHTML (message : String) : String :=
  "<div class=\"error-message\"><h3>Unable to load projects</h3><p>" ++
  sanitizeText (some message) ++
  "</p><p>Visit my <a href=\"https://github.com/Undreak\" target=\"_blank\" rel=\"noopener noreferrer\">GitHub</a> or <a href=\"https://gitlab.com/Undreak\" target=\"_blank\" rel=\"noopener noreferrer\">GitLab</a> directly.</p></div>"

/-- What the projects page shows after `init`: the error box, the
empty state, or the populated grid. -/
inductive RenderedPage where
  | emptyState : RenderedPage
  | grid : String → RenderedPage
  | errorBox : String → RenderedPage
deriving DecidableEq

/-- `AllProjectsManager.init` (src/js/projects-page.js lines 57-66) on two
settled fetch results: a `fetchAllProjects` throw reaches `showError`;
otherwise `applyFilters`/`displayProjects` run with the given filters. -/
def initRender (github gitlab : Settled) (fs : Filters) : RenderedPage :=
  match fetchAllProjects github gitlab with
  | .error e => .errorBox (showErrorHTML e)
  | .ok allProjects =>
    let filtered := applyFilters fs allProjects
    if filtered.length = 0 then .emptyState
    else .grid (String.join (filtered.map createProjectCard))

end AllProjectsManager

theorem sortByUpdatedDesc_sorted (l : List Project) :
    (sortByUpdatedDesc l).Pairwise updatedDescRel :=
  List.sorted_insertionSort updatedDescRel l

theorem sortByUpdatedDesc_perm (l : List Project) :
    (sortByUpdatedDesc l).Perm l :=
  List.perm_insertionSort updatedDescRel l

/-- **C2.** When exactly one of the two settled fetches rejects, the
fulfilled list is still what gets rendered: `ProjectsManager.init` hands
`displayProjects` exactly the sorted-and-truncated fulfilled list (whichever
side failed), every fulfilled project is shown whenever at most six
survive, and `AllProjectsManager.fetchAllProjects` returns the fulfilled
list untouched. -/
theorem c2_one_rejection_still_renders (e : String) (ps : List Project) :
    ProjectsManager.initDisplayed (.error e) (.ok ps) = (sortByUpdatedDesc ps).take 6 ∧
    ProjectsManager.initDisplayed (.ok ps) (.error e) = (sortByUpdatedDesc ps).take 6 ∧
    (ps.length ≤ 6 → (ProjectsManager.initDisplayed (.error e) (.ok ps)).Perm ps) ∧
    (ps ≠ [] → AllProjectsManager.fetchAllProjects (.error e) (.ok ps) = .ok ps) ∧
    (ps ≠ [] → AllProjectsManager.fetchAllProjects (.ok ps) (.error e) = .ok ps) := by
  have hcoll1 : collectSettled (.error e) (.ok ps) = ps := by
    simp [collectSettled]
  have hcoll2 : collectSettled (.ok ps) (.error e) = ps := by
    simp [collectSettled]
  refine ⟨?_, ?_, ?_, ?_, ?_⟩
  · unfold ProjectsManager.initDisplayed
    rw [hcoll1]
  · unfold ProjectsManager.initDisplayed
    rw [hcoll2]
  · intro hlen
    unfold ProjectsManager.initDisplayed
    rw [hcoll1]
    rw [List.take_of_length_le (by rw [(sortByUpdatedDesc_perm ps).length_eq]; exact hlen)]
    exact sortByUpdatedDesc_perm ps
  · intro hne
    unfold AllProjectsManager.fetchAllProjects
    rw [hcoll1]
    simp [List.length_eq_zero, hne]
  · intro hne
    unfold AllProjectsManager.fetchAllProjects
    rw [hcoll2]
    simp [List.length_eq_zero, hne]

/-- Witness for `c2_one_rejection_still_renders`: a concrete GitLab
rejection next to a fulfilled one-element GitHub list. -/
theorem c2_witness :
    ProjectsManager.initDisplayed
        (.ok [⟨"r", none, none, none, [], none, 0, 5, "github"⟩]) (.error "boom") =
      [⟨"r", none, none, none, [], none, 0, 5, "github"⟩] ∧
    AllProjectsManager.fetchAllProjects
        (.ok [⟨"r", none, none, none, [], none, 0, 5, "github"⟩]) (.error "boom") =
      .ok [⟨"r", none, none, none, [], none, 0, 5, "github"⟩] := by
  constructor
  · have h := (c2_one_rejection_still_renders "boom"
      [⟨"r", none, none, none, [], none, 0, 5, "github"⟩]).2.1
    rw [h]; decide
  · exact (c2_one_rejection_still_renders "boom"
      [⟨"r", none, none, none, [], none, 0, 5, "github"⟩]).2.2.2.2 (by decide)

/-- **C6.** The rendered home-page project list is an initial segment of a
permutation of the fulfilled results, holds at most six entries, descends
by `updated_at` on every adjacent pair, and only contains fulfilled
projects; `AllProjectsManager.applyFilters` under the default
`'updated'` sort descends the same way. -/
theorem c6_rendering_sorted_desc_take6 :
    (∀ github gitlab : Settled,
      (ProjectsManager.initDisplayed github gitlab).Chain'
          (fun a b => b.updated_at ≤ a.updated_at) ∧
      (ProjectsManager.initDisplayed github gitlab).length ≤ 6 ∧
      (∃ l : List Project, l.Perm (collectSettled github gitlab) ∧
        ProjectsManager.initDisplayed github gitlab = l.take 6) ∧
      (∀ p ∈ ProjectsManager.initDisplayed github gitlab,
        p ∈ collectSettled github gitlab)) ∧
    (∀ (fs : AllProjectsManager.Filters) (allProjects : List Project),
      fs.sort = "updated" →
      (AllProjectsManager.applyFilters fs allProjects).Chain'
        (fun a b => b.updated_at ≤ a.updated_at)) := by
  constructor
  · intro github gitlab
    have hsorted := sortByUpdatedDesc_sorted (collectSettled github gitlab)
    have hpair : (ProjectsManager.initDisplayed github gitlab).Pairwise updatedDescRel :=
      List.Pairwise.sublist (List.take_sublist 6 _) hsorted
    refine ⟨hpair.chain', ?_, ?_, ?_⟩
    · unfold ProjectsManager.initDisplayed
      rw [List.length_take]
      exact min_le_left _ _
    · exact ⟨sortByUpdatedDesc (collectSettled github gitlab),
        sortByUpdatedDesc_perm _, rfl⟩
    · intro p hp
      have : p ∈ sortByUpdatedDesc (collectSettled github gitlab) :=
        List.mem_of_mem_take hp
      exact (sortByUpdatedDesc_perm _).mem_iff.mp this
  · intro fs allProjects hsort
    unfold AllProjectsManager.applyFilters
    rw [hsort]
    simp only [reduceIte]
    exact (List.sorted_insertionSort updatedDescRel _).chain'

/-- Witness for `c6_rendering_sorted_desc_take6` on concrete data: two
projects with out-of-order dates come back descending, and the default
filters sort the same way. -/
theorem c6_witness :
    ((⟨"old", none, none, none, [], none, 0, 3, "github"⟩ : Project) ∈
        collectSettled
          (.ok [⟨"old", none, none, none, [], none, 0, 3, "github"⟩,
                ⟨"new", none, none, none, [], none, 0, 9, "github"⟩])
          (.error "down")) ∧
    (AllProjectsManager.applyFilters AllProjectsManager.defaultFilters
        [⟨"old", none, none, none, [], none, 0, 3, "github"⟩,
         ⟨"new", none, none, none, [], none, 0, 9, "github"⟩]).Chain'
      (fun a b => b.updated_at ≤ a.updated_at) := by
  constructor
  · exact (c6_rendering_sorted_desc_take6.1
      (.ok [⟨"old", none, none, none, [], none, 0, 3, "github"⟩,
            ⟨"new", none, none, none, [], none, 0, 9, "github"⟩])
      (.error "down")).2.2.2
      ⟨"old", none, none, none, [], none, 0, 3, "github"⟩ (by decide)
  · exact c6_rendering_sorted_desc_take6.2 AllProjectsManager.defaultFilters
      [⟨"old", none, none, none, [], none, 0, 3, "github"⟩,
       ⟨"new", none, none, none, [], none, 0, 9, "github"⟩] rfl

/-- **C3, counterexample.** When every fetch rejects, the home-page
`ProjectsManager` does *not* display a message with a profile link: the
settled-results processing never throws, so `handleError` is not reached,
and `displayProjects([])` writes the plain empty-state paragraph, which
contains neither a GitHub nor a GitLab link. -/
theorem c3_claim_counterexample :
    ProjectsManager.initHTML (.error "network down") (.error "rate limited") =
      "<p class=\"projects__empty\">No projects to display yet.</p>" ∧
    hasSub (ProjectsManager.initHTML (.error "network down") (.error "rate limited"))
      "github.com" = false ∧
    hasSub (ProjectsManager.initHTML (.error "network down") (.error "rate limited"))
      "gitlab.com" = false := by
  refine ⟨rfl, ?_, ?_⟩ <;> decide

/-- **C3, amended.** When every fetch rejects, `AllProjectsManager` shows
the user-facing error box with the static GitHub/GitLab profile links, but
`ProjectsManager` instead renders the `No projects to display yet.`
empty-state paragraph; the profile-link message of
`ProjectsManager.handleError` exists yet is reserved for the exception
path of `init`. -/
theorem c3_amended_error_fallbacks (e1 e2 : String) :
    ProjectsManager.initHTML (.error e1) (.error e2) =
      "<p class=\"projects__empty\">No projects to display yet.</p>" ∧
    (∀ fs : AllProjectsManager.Filters,
      AllProjectsManager.initRender (.error e1) (.error e2) fs =
        .errorBox (AllProjectsManager.showErrorHTML "No projects found")) ∧
    hasSub (AllProjectsManager.showErrorHTML "No projects found")
      "github.com/Undreak" = true ∧
    hasSub (AllProjectsManager.showErrorHTML "No projects found")
      "gitlab.com/Undreak" = true ∧
    hasSub ProjectsManager.handleErrorHTML "github.com/Undreak" = true ∧
    hasSub ProjectsManager.handleErrorHTML "gitlab.com/Undreak" = true := by
  refine ⟨rfl, fun fs => rfl, ?_, ?_, ?_, ?_⟩ <;> decide

theorem strAppend_assoc (a b c : String) : (a ++ b) ++ c = a ++ (b ++ c) := by
  cases a with
  | mk la =>
    cases b with
    | mk lb =>
      cases c with
      | mk lc =>
        show String.mk ((la ++ lb) ++ lc) = String.mk (la ++ (lb ++ lc))
        rw [List.append_assoc]

theorem strAppend_scheme_slashes (s1 Y : String) :
    s1 ++ "://" ++ Y = (s1 ++ ":") ++ ("//" ++ Y) := by
  rw [strAppend_assoc s1 "://" Y, strAppend_assoc s1 ":" ("//" ++ Y),
    ← strAppend_assoc ":" "//" Y]
  rfl

theorem parseURL_href_shape (s : String) (p : ParsedURL) (h : parseURL s = some p) :
    ∃ t : String, p.href = p.protocol ++ t := by
  unfold parseURL at h
  dsimp only at h
  cases hs : splitScheme (stripControls s) with
  | none => rw [hs] at h; simp at h
  | some pr =>
    obtain ⟨schemeRaw, rest⟩ := pr
    rw [hs] at h
    simp only at h
    split_ifs at h with h1 h2 h3 <;>
      first
        | exact Option.noConfusion h
        | (rw [Option.some.injEq] at h
           subst h
           first
             | exact ⟨_, strAppend_scheme_slashes _ _⟩
             | exact ⟨String.mk rest, rfl⟩)

theorem isValidURL_http_or_https (u : Option String) (href : String)
    (h : ProjectsManager.isValidURL u = some href) :
    ∃ t, href = "http:" ++ t ∨ href = "https:" ++ t := by
  unfold ProjectsManager.isValidURL at h
  split_ifs at h with ht
  cases hp : parseURL (u.getD "") with
  | none => rw [hp] at h; exact Option.noConfusion h
  | some parsed =>
      rw [hp] at h
      simp only at h
      split_ifs at h with hproto
      rw [Option.some.injEq] at h
      subst h
      have hcase : parsed.protocol = "http:" ∨ parsed.protocol = "https:" := by
        by_cases h1 : parsed.protocol = "http:"
        · exact Or.inl h1
        · by_cases h2 : parsed.protocol = "https:"
          · exact Or.inr h2
          · exact absurd ⟨h1, h2⟩ hproto
      obtain ⟨t, hhref⟩ := parseURL_href_shape _ _ hp
      rcases hcase with hh | hh
      · exact ⟨t, Or.inl (by rw [hhref, hh])⟩
      · exact ⟨t, Or.inr (by rw [hhref, hh])⟩

/-- The two managers' `isValidURL` methods are the same function. -/
theorem isValidURL_APM_eq_PM :
    AllProjectsManager.isValidURL = ProjectsManager.isValidURL := rfl

/-- **C9.** `isValidURL` never lets a non-`http(s)` URL through: every
`some` result is an absolute URL beginning with `http:` or `https:`
(so never `javascript:` or any other scheme), and `createProjectCard`
renders no card at all — the empty string — whenever the repository's
`html_url` fails this validation; hence every `href` interpolated into a
project card went through `isValidURL`. -/
theorem c9_url_validation_safe :
    (∀ (u : Option String) (href : String),
      ProjectsManager.isValidURL u = some href →
        ∃ t, href = "http:" ++ t ∨ href = "https:" ++ t) ∧
    (∀ repo : Project, ProjectsManager.isValidURL repo.html_url = none →
      ProjectsManager.createProjectCard repo = "") ∧
    (∀ (u : Option String) (href : String),
      AllProjectsManager.isValidURL u = some href →
        ∃ t, href = "http:" ++ t ∨ href = "https:" ++ t) ∧
    (∀ repo : Project, AllProjectsManager.isValidURL repo.html_url = none →
      AllProjectsManager.createProjectCard repo = "") := by
  refine ⟨isValidURL_http_or_https, ?_, ?_, ?_⟩
  · intro repo h
    simp only [ProjectsManager.createProjectCard, projectCardHTML, h]
  · intro u href h
    rw [isValidURL_APM_eq_PM] at h
    exact isValidURL_http_or_https u href h
  · intro repo h
    simp only [AllProjectsManager.createProjectCard, projectCardHTML, h]

/-- Witness for `c9_url_validation_safe`: a GitHub `https` URL passes
validation and indeed starts with `https:`, while a repository whose
`html_url` is a `javascript:` URL produces no card. -/
theorem c9_witness :
    ProjectsManager.isValidURL (some "https://github.com/Undreak") =
      some "https://github.com/Undreak" ∧
    (∃ t, "https://github.com/Undreak" = "http:" ++ t ∨
          "https://github.com/Undreak" = "https:" ++ t) ∧
    AllProjectsManager.createProjectCard
      ⟨"n", none, some "javascript:alert(1)", none, [], none, 0, 0, "github"⟩ = "" ∧
    ProjectsManager.createProjectCard
      ⟨"n", none, none, none, [], none, 0, 0, "github"⟩ = "" := by
  refine ⟨by decide, ?_, ?_, ?_⟩
  · exact c9_url_validation_safe.1 (some "https://github.com/Undreak") _ (by decide)
  · exact c9_url_validation_safe.2.2.2
      ⟨"n", none, some "javascript:alert(1)", none, [], none, 0, 0, "github"⟩ (by decide)
  · exact c9_url_validation_safe.2.1
      ⟨"n", none, none, none, [], none, 0, 0, "github"⟩ (by decide)

/-! ## Theme manager (src/js/article-mobile.js lines 61-86)

State of the `theme` localStorage key: `none` = absent.  The result pairs
the returned theme with the key's value after the call. -/

namespace ThemeManager

/-- `ThemeManager.getInitialTheme`: a truthy stored value in
`{light, dark}` is returned as is; a truthy invalid value is removed; in
every other case the OS `prefers-color-scheme` preference decides. -/
def getInitialTheme (savedTheme : Option String) (prefersDark : Bool) :
    String × Option String :=
  if jsTruthy savedTheme ∧ (savedTheme = some "light" ∨ savedTheme = some "dark") then
    (savedTheme.getD "", savedTheme)
  else if jsTruthy savedTheme then
    (if prefersDark then "dark" else "light", none)
  else
    (if prefersDark then "dark" else "light", savedTheme)

end ThemeManager

/-- **C4, counterexample.** The stored empty string is outside
`{light, dark}`, yet `getInitialTheme` does not remove the key: `''` is
falsy in JavaScript, so the `if (savedTheme)` removal guard is skipped and
the key keeps its value (the OS preference is still returned). -/
theorem c4_claim_counterexample :
    ThemeManager.getInitialTheme (some "") true = ("dark", some "") ∧
    (ThemeManager.getInitialTheme (some "") true).2 ≠ none := by
  constructor <;> decide

/-- **C4, amended.** A stored `light`/`dark` is returned unchanged with the
key kept; every *non-empty* stored value outside `{light, dark}` is removed
and the OS preference is returned; an absent key or a stored empty string
falls back to the OS preference with the key left as it was. -/
theorem c4_amended_theme_validation (prefersDark : Bool) :
    (ThemeManager.getInitialTheme (some "light") prefersDark = ("light", some "light")) ∧
    (ThemeManager.getInitialTheme (some "dark") prefersDark = ("dark", some "dark")) ∧
    (∀ s : String, s ≠ "" → s ≠ "light" → s ≠ "dark" →
      ThemeManager.getInitialTheme (some s) prefersDark =
        (if prefersDark then "dark" else "light", none)) ∧
    (ThemeManager.getInitialTheme none prefersDark =
      (if prefersDark then "dark" else "light", none)) ∧
    (ThemeManager.getInitialTheme (some "") prefersDark =
      (if prefersDark then "dark" else "light", some "")) := by
  refine ⟨?_, ?_, ?_, ?_, ?_⟩
  · simp [ThemeManager.getInitialTheme, jsTruthy]
  · simp [ThemeManager.getInitialTheme, jsTruthy]
  · intro s hne hlight hdark
    unfold ThemeManager.getInitialTheme
    rw [if_neg, if_pos]
    · simp [jsTruthy, hne]
    · rintro ⟨_, h | h⟩ <;> simp_all
  · simp [ThemeManager.getInitialTheme, jsTruthy]
  · simp [ThemeManager.getInitialTheme, jsTruthy]

/-- Witness for `c4_amended_theme_validation`: the invalid stored value
`purple` is removed and the OS dark preference wins. -/
theorem c4_witness :
    ThemeManager.getInitialTheme (some "purple") true = ("dark", none) := by
  have h := (c4_amended_theme_validation true).2.2.1 "purple"
    (by decide) (by decide) (by decide)
  simpa using h

/-! ## I18n language selection (src/unnamed/part_000 lines 17-43) -/

namespace I18nManager

/-- `supportedLangs` from the constructor. -/
def supportedLangs : List String := ["en", "fr"]

/-- `navigator.language.split('-')[0]`: the primary language subtag. -/
def primarySubtag (navLang : String) : String :=
  String.mk (navLang.toList.takeWhile (fun c => c ≠ '-'))

/-- `I18nManager.getInitialLanguage`: a truthy stored value in
`{en, fr}` is returned; a truthy invalid value is removed; then the
browser's primary subtag is used when supported, else the default `en`.
The result pairs the returned language with the `language` key's value
after the call. -/
def getInitialLanguage (savedLang : Option String) (navLang : String) :
    String × Option String :=
  if jsTruthy savedLang ∧ (savedLang.getD "") ∈ supportedLangs then
    (savedLang.getD "", savedLang)
  else
    let newStore := if jsTruthy savedLang then none else savedLang
    let browserLang := primarySubtag navLang
    if browserLang ∈ supportedLangs then (browserLang, newStore)
    else ("en", newStore)

end I18nManager

/-- **C7, counterexample.** The stored empty string is outside `{en, fr}`,
yet `getInitialLanguage` does not remove the key: `''` is falsy, so the
`if (savedLang)` removal guard is skipped while the browser fallback is
still used. -/
theorem c7_claim_counterexample :
    I18nManager.getInitialLanguage (some "") "de-DE" = ("en", some "") ∧
    (I18nManager.getInitialLanguage (some "") "de-DE").2 ≠ none := by
  constructor <;> decide

/-- **C7, amended.** A stored `en`/`fr` is returned unchanged with the key
kept; every *non-empty* stored value outside `{en, fr}` is removed; an
absent key or a stored empty string leaves the key as it was; in all
fallback cases the result is the browser's primary subtag when it is `en`
or `fr` and the default `en` otherwise. -/
theorem c7_amended_language_validation (navLang : String) :
    (I18nManager.getInitialLanguage (some "en") navLang = ("en", some "en")) ∧
    (I18nManager.getInitialLanguage (some "fr") navLang = ("fr", some "fr")) ∧
    (∀ s : String, s ≠ "" → s ∉ I18nManager.supportedLangs →
      I18nManager.getInitialLanguage (some s) navLang =
        (if I18nManager.primarySubtag navLang ∈ I18nManager.supportedLangs
         then I18nManager.primarySubtag navLang else "en", none)) ∧
    (I18nManager.getInitialLanguage none navLang =
      (if I18nManager.primarySubtag navLang ∈ I18nManager.supportedLangs
       then I18nManager.primarySubtag navLang else "en", none)) ∧
    (I18nManager.getInitialLanguage (some "") navLang =
      (if I18nManager.primarySubtag navLang ∈ I18nManager.supportedLangs
       then I18nManager.primarySubtag navLang else "en", some "")) := by
  refine ⟨?_, ?_, ?_, ?_, ?_⟩
  · simp [I18nManager.getInitialLanguage, jsTruthy, I18nManager.supportedLangs]
  · simp [I18nManager.getInitialLanguage, jsTruthy, I18nManager.supportedLangs]
  · intro s hne hnotin
    have ht : jsTruthy (some s) = true := by simp [jsTruthy, hne]
    unfold I18nManager.getInitialLanguage
    rw [if_neg]
    · simp only [ht, if_true]
      split_ifs <;> rfl
    · rintro ⟨_, hmem⟩
      exact hnotin (by simpa using hmem)
  · have ht : jsTruthy none = false := rfl
    unfold I18nManager.getInitialLanguage
    rw [if_neg (by simp [ht])]
    simp only [ht, Bool.false_eq_true, if_false]
    split_ifs <;> rfl
  · have ht : jsTruthy (some "") = false := by decide
    unfold I18nManager.getInitialLanguage
    rw [if_neg (by simp [ht])]
    simp only [ht, Bool.false_eq_true, if_false]
    split_ifs <;> rfl

/-- Witness for `c7_amended_language_validation`: the invalid stored value
`xx` is removed and a French browser locale wins the fallback. -/
theorem c7_witness :
    I18nManager.getInitialLanguage (some "xx") "fr-CA" = ("fr", none) := by
  have h := (c7_amended_language_validation "fr-CA").2.2.1 "xx" (by decide) (by decide)
  rw [h]
  decide

/-! ## Form manager (src/js/main.js lines 380-527) -/

/-- The digit run of `parseInt`. -/
def digitsToNat (ds : List Char) : Nat :=
  ds.foldl (fun acc c => acc * 10 + (c.toNat - '0'.toNat)) 0

/-- Model of JavaScript `parseInt(s, 10)`: skip leading whitespace, read an
optional sign, then the longest digit run; `none` models `NaN` (no digits).
Trailing non-digit characters are ignored.  (The precision loss of numbers
above 2^53 is not modelled.) -/
def parseIntJS (s : String) : Option Int :=
  let cs := s.toList.dropWhile isJsSpace
  let sign : Int := if cs.headD ' ' = '-' then -1 else 1
  let cs2 := if cs.headD ' ' = '-' ∨ cs.headD ' ' = '+' then cs.tail else cs
  let ds := cs2.takeWhile Char.isDigit
  if ds = [] then none
  else some (sign * (digitsToNat ds : Int))

namespace FormManager

/-- `FormManager.canSubmit` (src/js/main.js lines 406-430).  The result
pairs the returned boolean with the `lastFormSubmit` key's value after the
call (`now` is `Date.now()` in milliseconds). -/
def canSubmit (lastSubmit : Option String) (now : Nat) : Bool × Option String :=
  if jsTruthy lastSubmit then
    match parseIntJS (lastSubmit.getD "") with
    | none => (true, none)
    | some timestamp =>
      if timestamp < 0 ∨ (now : Int) < timestamp then (true, none)
      else
        if (now : Int) - timestamp < 60000 then (false, lastSubmit)
        else (true, lastSubmit)
  else (true, lastSubmit)

end FormManager

/-- **C5, counterexample.** `99999abc` is a non-numeric string, yet
`canSubmit` neither removes it nor allows the submit: `parseInt` reads the
numeric head `99999`, which at `Date.now() = 100000` is one millisecond old,
so the rate limit rejects the user and the garbage value stays stored. -/
theorem c5_claim_counterexample :
    FormManager.canSubmit (some "99999abc") 100000 = (false, some "99999abc") ∧
    FormManager.canSubmit (some "99999abc") 100000 ≠ (true, none) := by
  constructor <;> decide

/-- **C5, amended.** `canSubmit` removes the stored value and returns
`true` exactly when `parseInt` of it is `NaN`, negative, or in the future;
a string with a numeric head is treated as that number (recent numeric
heads rate-limit without removal, older ones allow without removal); an
absent key or a stored empty string allows without touching the key. -/
theorem c5_amended_rate_limit_validation (s : String) (now : Nat) :
    (FormManager.canSubmit none now = (true, none)) ∧
    (FormManager.canSubmit (some "") now = (true, some "")) ∧
    (s ≠ "" → parseIntJS s = none →
      FormManager.canSubmit (some s) now = (true, none)) ∧
    (∀ t : Int, s ≠ "" → parseIntJS s = some t → (t < 0 ∨ (now : Int) < t) →
      FormManager.canSubmit (some s) now = (true, none)) ∧
    (∀ t : Int, s ≠ "" → parseIntJS s = some t → 0 ≤ t → t ≤ (now : Int) →
      FormManager.canSubmit (some s) now =
        (if (now : Int) - t < 60000 then false else true, some s)) := by
  refine ⟨rfl, rfl, ?_, ?_, ?_⟩
  · intro hne hnan
    unfold FormManager.canSubmit
    rw [if_pos (by simp [jsTruthy, hne])]
    simp [hnan]
  · intro t hne hpar hrange
    unfold FormManager.canSubmit
    rw [if_pos (by simp [jsTruthy, hne])]
    simp only [Option.getD_some, hpar]
    rw [if_pos hrange]
  · intro t hne hpar h0 hnow
    unfold FormManager.canSubmit
    rw [if_pos (by simp [jsTruthy, hne])]
    simp only [Option.getD_some, hpar]
    rw [if_neg (by omega)]
    split_ifs <;> rfl

/-- Witness for `c5_amended_rate_limit_validation`: the stored value `-5`
parses negative, is removed, and the user may submit. -/
theorem c5_witness :
    FormManager.canSubmit (some "-5") 1000 = (true, none) := by
  exact (c5_amended_rate_limit_validation "-5" 1000).2.2.2.1 (-5)
    (by decide) (by decide) (by decide)

/-- Split a character list at the first occurrence of `c`. -/
def splitAtFirst (c : Char) : List Char → Option (List Char × List Char)
  | [] => none
  | x :: xs =>
    if x = c then some ([], xs)
    else (splitAtFirst c xs).map (fun pr => (x :: pr.1, pr.2))

/-- A character allowed by the `[^\s@]` classes of the email regex. -/
def emailChar (c : Char) : Bool := !(isJsSpace c) && c != '@'

/-- A dot with at least one character before and after it inside the
domain part (the backtracking of `[^\s@]+\.[^\s@]+`). -/
def hasDotNotLast : List Char → Bool
  | [] => false
  | [_] => false
  | '.' :: _ :: _ => true
  | _ :: rest => hasDotNotLast rest

namespace FormManager

/-- `FormManager.isValidEmail` (src/js/main.js lines 400-403), the regex
`/^[^\s@]+@[^\s@]+\.[^\s@]+$/`: exactly one split at the first `@`, both
sides non-empty without whitespace or further `@`, and the domain side has
an interior dot. -/
def isValidEmail (email : String) : Bool :=
  match splitAtFirst '@' email.toList with
  | none => false
  | some (localPart, domain) =>
    localPart ≠ [] && localPart.all emailChar && domain.all emailChar &&
    (match domain with
     | [] => false
     | _ :: rest => hasDotNotLast rest)

/-- The user-visible outcome of one `handleSubmit` attempt
(src/js/main.js lines 432-527), one constructor per `showStatus` call plus
the success path. -/
inductive SubmitOutcome where
  | notConfigured : SubmitOutcome
  | rateLimited : SubmitOutcome
  | missingFields : SubmitOutcome
  | invalidEmail : SubmitOutcome
  | tooShort : SubmitOutcome
  | tooLong : SubmitOutcome
  | success : SubmitOutcome
  | sendFailed : SubmitOutcome
  | timedOut : SubmitOutcome
deriving DecidableEq

/-- The settled state of the `fetch` POST: a response with its `ok` flag,
or a thrown error (`TimeoutError` from the 15-second `AbortSignal`, or any
other network error). -/
inductive FetchOutcome where
  | response : Bool → FetchOutcome
  | timeoutErr : FetchOutcome
  | networkErr : FetchOutcome
deriving DecidableEq

/-- `FormManager.handleSubmit` on one attempt: `configured` is
`!form.action.includes('YOUR_FORM_ID')`, `stored` the `lastFormSubmit`
key, `now` is `Date.now()`, the four strings are the field values and
`fetched` the POST outcome (reached only when validation passes).  The
result pairs the outcome with the key's value after the attempt. -/
def handleSubmit (configured : Bool) (stored : Option String) (now : Nat)
    (nameV emailV subjectV messageV : String) (fetched : FetchOutcome) :
    SubmitOutcome × Option String :=
  if !configured then (.notConfigured, stored)
  else
    let rate := canSubmit stored now
    if !rate.1 then (.rateLimited, rate.2)
    else if jsTrim nameV = "" ∨ jsTrim emailV = "" ∨
            jsTrim subjectV = "" ∨ jsTrim messageV = "" then
      (.missingFields, rate.2)
    else if !(isValidEmail emailV) then (.invalidEmail, rate.2)
    else if messageV.length < 10 then (.tooShort, rate.2)
    else if 5000 < messageV.length then (.tooLong, rate.2)
    else
      match fetched with
      | .response true => (.success, some (toString now))
      | .response false => (.sendFailed, rate.2)
      | .timeoutErr => (.timedOut, rate.2)
      | .networkErr => (.sendFailed, rate.2)

end FormManager

theorem canSubmit_store_cases (stored : Option String) (now : Nat) :
    (FormManager.canSubmit stored now).2 = stored ∨
    (FormManager.canSubmit stored now).2 = none := by
  unfold FormManager.canSubmit
  split_ifs with h1
  · cases parseIntJS (stored.getD "") with
    | none => exact Or.inr rfl
    | some t =>
      simp only
      split_ifs <;> first | exact Or.inl rfl | exact Or.inr rfl
  · exact Or.inl rfl

/-- **C8, counterexample.** A failed attempt can change the stored
`lastFormSubmit` value: with the invalid stored value `-5`, a submit that
then fails validation (empty name field) has already had the rate-limit
check remove the key. -/
theorem c8_claim_counterexample :
    FormManager.handleSubmit true (some "-5") 1000 "" "a@b.c" "s"
        "hello there, world" (.response true) = (.missingFields, none) ∧
    (FormManager.handleSubmit true (some "-5") 1000 "" "a@b.c" "s"
        "hello there, world" (.response true)).2 ≠ some "-5" := by
  constructor <;> decide

/-- **C8, amended.** A new timestamp is written to `lastFormSubmit` only by
the `response.ok` branch: on every non-success outcome the stored value is
either left unchanged or removed (removal happens exactly when the
rate-limit check discards an invalid stored value), so a failed attempt
never extends the rate-limit window; on success the key becomes the
current time. -/
theorem c8_amended_timestamp_write (configured : Bool) (stored : Option String)
    (now : Nat) (nameV emailV subjectV messageV : String)
    (fetched : FormManager.FetchOutcome) :
    ((FormManager.handleSubmit configured stored now
        nameV emailV subjectV messageV fetched).1 ≠ .success →
      ((FormManager.handleSubmit configured stored now
          nameV emailV subjectV messageV fetched).2 = stored ∨
       (FormManager.handleSubmit configured stored now
          nameV emailV subjectV messageV fetched).2 = none)) ∧
    ((FormManager.handleSubmit configured stored now
        nameV emailV subjectV messageV fetched).1 = .success →
      (FormManager.handleSubmit configured stored now
          nameV emailV subjectV messageV fetched).2 = some (toString now)) := by
  have hrate := canSubmit_store_cases stored now
  unfold FormManager.handleSubmit
  dsimp only
  split_ifs with h1 hr h2 h3 h4 h5
  · exact ⟨fun _ => Or.inl rfl, fun h => absurd h (by simp)⟩
  · exact ⟨fun _ => hrate, fun h => absurd h (by simp)⟩
  · exact ⟨fun _ => hrate, fun h => absurd h (by simp)⟩
  · exact ⟨fun _ => hrate, fun h => absurd h (by simp)⟩
  · exact ⟨fun _ => hrate, fun h => absurd h (by simp)⟩
  · exact ⟨fun _ => hrate, fun h => absurd h (by simp)⟩
  · cases fetched with
    | response ok =>
      cases ok with
      | true => exact ⟨fun h => absurd rfl h, fun _ => rfl⟩
      | false => exact ⟨fun _ => hrate, fun h => absurd h (by simp)⟩
    | timeoutErr => exact ⟨fun _ => hrate, fun h => absurd h (by simp)⟩
    | networkErr => exact ⟨fun _ => hrate, fun h => absurd h (by simp)⟩

/-- Witness for `c8_amended_timestamp_write`: a server rejection
(`response.ok` false) leaves a valid recent timestamp untouched, and a
successful POST stores the current time. -/
theorem c8_witness :
    (FormManager.handleSubmit true (some "500") 100000 "n" "a@b.c" "s"
        "hello there, world" (.response false)).2 = some "500" ∧
    (FormManager.handleSubmit true (some "500") 100000 "n" "a@b.c" "s"
        "hello there, world" (.response true)).2 = some "100000" := by
  constructor
  · have h := (c8_amended_timestamp_write true (some "500") 100000 "n" "a@b.c" "s"
      "hello there, world" (.response false)).1 (by decide)
    rcases h with h | h
    · exact h
    · exact absurd h (by decide)
  · exact (c8_amended_timestamp_write true (some "500") 100000 "n" "a@b.c" "s"
      "hello there, world" (.response true)).2 (by decide)

/-! ## Lightbox navigation (src/js/lightbox.js lines 123-175)

The module state is `currentIndex` (a JavaScript number, modelled as `Int`)
over the fixed `images` array captured by `init`. -/

/-- One entry of the lightbox `images` array. -/
structure LightboxImage where
  src : String
  alt : String
  caption : String
deriving DecidableEq

/-- The operations that move `currentIndex`: `openLightbox(index)`
(line 123), `prevImage` (line 143), `nextImage` (line 151). -/
inductive LightboxOp where
  | openLightbox : Int → LightboxOp
  | prevImage : LightboxOp
  | nextImage : LightboxOp
deriving DecidableEq

/-- The effect of one operation on `currentIndex` over `n` images:
`openLightbox` assigns, `prevImage` decrements only above `0`,
`nextImage` increments only below `images.length - 1`. -/
def lbStep (n : Nat) (currentIndex : Int) : LightboxOp → Int
  | .openLightbox index => index
  | .prevImage => if 0 < currentIndex then currentIndex - 1 else currentIndex
  | .nextImage =>
    if currentIndex < (n : Int) - 1 then currentIndex + 1 else currentIndex

/-- Run a sequence of lightbox operations. -/
def lbRun (n : Nat) (currentIndex : Int) (ops : List LightboxOp) : Int :=
  ops.foldl (lbStep n) currentIndex

/-- A call is in-range when an `openLightbox` argument is a valid image
index (`init` only registers click handlers at indices of `images`);
`prevImage`/`nextImage` have no argument. -/
def lbValidOp (n : Nat) : LightboxOp → Bool
  | .openLightbox index => decide (0 ≤ index) && decide (index ≤ (n : Int) - 1)
  | .prevImage => true
  | .nextImage => true

/-- The index invariant of the lightbox. -/
def lbInv (n : Nat) (currentIndex : Int) : Prop :=
  0 ≤ currentIndex ∧ currentIndex ≤ (n : Int) - 1

instance (n : Nat) (i : Int) : Decidable (lbInv n i) :=
  inferInstanceAs (Decidable (_ ∧ _))

/-- The array read `images[currentIndex]` performed by `updateLightbox`
(line 160): `none` models the out-of-bounds `undefined`. -/
def updateLightboxRead (images : List LightboxImage) (currentIndex : Int) :
    Option LightboxImage :=
  if 0 ≤ currentIndex then images.get? currentIndex.toNat else none

theorem lbStep_preserves (n : Nat) (hn : 0 < n) (i : Int) (op : LightboxOp)
    (hi : lbInv n i) (hop : lbValidOp n op = true) : lbInv n (lbStep n i op) := by
  obtain ⟨h0, h1⟩ := hi
  cases op with
  | openLightbox index =>
    simp only [lbValidOp, Bool.and_eq_true, decide_eq_true_eq] at hop
    exact hop
  | prevImage =>
    simp only [lbStep]
    split_ifs with h <;> constructor <;> omega
  | nextImage =>
    simp only [lbStep]
    split_ifs with h <;> constructor <;> omega

theorem lbRun_preserves (n : Nat) (hn : 0 < n) (ops : List LightboxOp)
    (hops : ∀ op ∈ ops, lbValidOp n op = true) :
    ∀ i : Int, lbInv n i → lbInv n (lbRun n i ops) := by
  induction ops with
  | nil => intro i hi; exact hi
  | cons op rest ih =>
    intro i hi
    exact ih (fun o ho => hops o (List.mem_cons_of_mem _ ho)) _
      (lbStep_preserves n hn i op hi (hops op (List.mem_cons_self _ _)))

/-- **C10.** Over a non-empty image list, the invariant
`0 ≤ currentIndex ≤ images.length - 1` is preserved by every sequence of
`openLightbox` (at valid indices), `prevImage` and `nextImage` calls;
`prevImage` at index `0` and `nextImage` at the last index leave the index
unchanged; and under the invariant the `images[currentIndex]` read of
`updateLightbox` is never out of bounds. -/
theorem c10_lightbox_index_invariant (images : List LightboxImage)
    (hne : images ≠ []) (i : Int) (hi : lbInv images.length i)
    (ops : List LightboxOp)
    (hops : ∀ op ∈ ops, lbValidOp images.length op = true) :
    lbInv images.length (lbRun images.length i ops) ∧
    lbStep images.length 0 .prevImage = 0 ∧
    lbStep images.length ((images.length : Int) - 1) .nextImage =
      (images.length : Int) - 1 ∧
    (updateLightboxRead images (lbRun images.length i ops)).isSome = true := by
  have hn : 0 < images.length := List.length_pos.mpr hne
  have hrun := lbRun_preserves images.length hn ops hops i hi
  refine ⟨hrun, ?_, ?_, ?_⟩
  · simp [lbStep]
  · simp [lbStep]
  · obtain ⟨h0, h1⟩ := hrun
    unfold updateLightboxRead
    rw [if_pos h0]
    rw [List.get?_eq_getElem?]
    rw [List.getElem?_eq_getElem (by omega)]
    rfl

/-- Witness for `c10_lightbox_index_invariant`: three images, opened at
index `2`, then `nextImage` (clamped) and `prevImage`. -/
theorem c10_witness :
    lbInv 3 (lbRun 3 0 [.openLightbox 2, .nextImage, .prevImage]) ∧
    (updateLightboxRead [⟨"a.png", "a", ""⟩, ⟨"b.png", "b", ""⟩, ⟨"c.png", "c", ""⟩]
        (lbRun 3 0 [.openLightbox 2, .nextImage, .prevImage])).isSome = true := by
  have h := c10_lightbox_index_invariant
    [⟨"a.png", "a", ""⟩, ⟨"b.png", "b", ""⟩, ⟨"c.png", "c", ""⟩]
    (by decide) 0 (by decide)
    [.openLightbox 2, .nextImage, .prevImage] (by decide)
  exact ⟨h.1, h.2.2.2⟩
